import Mathlib

/-!
# Verification of the `esp_sensors` MQTT client core

Shallow embedding of the MQTT wire codec and session logic implemented in
`src/esp_sensors/mqtt_client.py` and `src/esp_sensors/mqtt.py`.

Bytes are modelled as `List Nat` (each element intended `< 256`); Python
exceptions become `Except`-style results; the mutable `MQTTClient` object
becomes explicit state passing; socket receives become an explicit list of
`RecvResult` values consumed in order.
-/

namespace EspSensors

/-- MQTT control packet type constants, from the module header of
`mqtt_client.py`. -/
def CONNECT : Nat := 0x10
def CONNACK : Nat := 0x20
def PUBLISH : Nat := 0x30
def PUBACK : Nat := 0x40
def SUBSCRIBE : Nat := 0x80
def SUBACK : Nat := 0x90
def PINGREQ : Nat := 0xC0
def PINGRESP : Nat := 0xD0
def DISCONNECT : Nat := 0xE0

/-! ## Wire codec -/

/-- `MQTTClient._encode_length` (mqtt_client.py lines 117-136): the MQTT
variable-length remaining-length encoder.  The Python do/while loop
`byte = length % 128; length //= 128; if length > 0: byte |= 0x80;
append; until length == 0` becomes recursion on the quotient. -/
def encode_length (length : Nat) : List Nat :=
  let byte := length % 128
  let rest := length / 128
  if h : rest > 0 then (byte ||| 0x80) :: encode_length rest
  else [byte]
  termination_by length
  decreasing_by
    exact Nat.div_lt_self (Nat.pos_of_ne_zero (fun h0 => by
      subst h0; simp [rest] at h)) (by norm_num)

/-- `struct.pack("!H", n)`: 2-byte big-endian encoding used for string
length prefixes and packet ids.  `struct.error` (raised when the value
does not fit 16 bits) is modelled as `none`. -/
def pack_u16 (n : Nat) : Option (List Nat) :=
  if n < 65536 then some [n / 256, n % 256] else none

/-- `MQTTClient._encode_string` (mqtt_client.py lines 138-150):
2-byte big-endian length prefix followed by the raw bytes; the topic is
already UTF-8 bytes here.  Fails (Python `struct.error`) when the length
exceeds 65535. -/
def encode_string (s : List Nat) : Option (List Nat) :=
  match pack_u16 s.length with
  | some pfx => some (pfx ++ s)
  | none => none

/-- The PUBLISH packet body constructed by `MQTTClient.publish`
(mqtt_client.py lines 400-424): encoded topic, then the 2-byte packet id
when `qos > 0`, then the raw message bytes.  `retain` only affects the
fixed-header byte, not the body.  `none` models `struct.error` from an
oversized topic or packet id. -/
def encode_publish_body (topic msg : List Nat) (qos pid : Nat) :
    Option (List Nat) :=
  match encode_string topic with
  | none => none
  | some p =>
    if qos > 0 then
      match pack_u16 pid with
      | none => none
      | some pidb => some (p ++ pidb ++ msg)
    else some (p ++ msg)

/-- The three malformed-PUBLISH conditions detected by
`MQTTClient.check_msg` (mqtt_client.py lines 522-553), each of which
prints a warning and drops the packet. -/
inductive ProtocolError where
  | tooShortForTopicLen
  | tooShortForTopic
  | tooShortForPid
  deriving DecidableEq, Repr

/-- The PUBLISH-body decoding performed by `MQTTClient.check_msg`
(mqtt_client.py lines 516-563): read the 2-byte big-endian topic length,
check the body is long enough, slice out the topic, and when `qos > 0`
read the 2-byte packet id before taking the rest as the message.
The three guarded `return`s of the source become typed errors. -/
def decode_publish (payload : List Nat) (qos : Nat) :
    Except ProtocolError (List Nat × Option Nat × List Nat) :=
  if payload.length < 2 then .error .tooShortForTopicLen
  else
    let topic_len := payload.headI * 256 + (payload.drop 1).headI
    if payload.length < 2 + topic_len then .error .tooShortForTopic
    else
      let topic := (payload.drop 2).take topic_len
      if qos > 0 then
        if payload.length < 2 + topic_len + 2 then .error .tooShortForPid
        else
          let pid := (payload.drop (2 + topic_len)).headI * 256 +
            (payload.drop (2 + topic_len + 1)).headI
          pure (topic, some pid, payload.drop (2 + topic_len + 2))
      else
        pure (topic, none, payload.drop (2 + topic_len))

/-- The PUBLISH-body decoding performed by the older duplicate
`MQTTClient.check_msg` in mqtt.py (lines 402-421), which has no length
guards at all.  `struct.unpack("!H", payload[0:2])` raises an untyped
`struct.error` when the body holds fewer than 2 bytes (Python slices
clamp, so the slice is short and unpack fails); the same happens for the
packet-id slice when `qos > 0` and the body ends before it.  The topic
slice `payload[2:2+topic_len]`, however, clamps silently: a body shorter
than its declared topic length delivers a truncated topic with no error
of any kind. -/
def decode_publish_unguarded (payload : List Nat) (qos : Nat) :
    Except String (List Nat × Option Nat × List Nat) :=
  if payload.length < 2 then .error "struct.error"
  else
    let topic_len := payload.headI * 256 + (payload.drop 1).headI
    let topic := (payload.drop 2).take topic_len
    if qos > 0 then
      if payload.length < 2 + topic_len + 2 then .error "struct.error"
      else
        let pid := (payload.drop (2 + topic_len)).headI * 256 +
          (payload.drop (2 + topic_len + 1)).headI
        pure (topic, some pid, payload.drop (2 + topic_len + 2))
    else
      pure (topic, none, payload.drop (2 + topic_len))

/-- The remaining-length decoding loop of `MQTTClient._recv_packet`
(mqtt_client.py lines 209-239): up to 4 bytes, little-endian base-128
accumulation with multiplier, stop at the first byte whose continuation
bit `0x80` is clear; running out of bytes, or 4 bytes all with the
continuation bit set, is a failure.  Returns the decoded value and the
number of bytes consumed. -/
def decode_length_go : List Nat → Nat → Nat → Nat → Option (Nat × Nat)
  | _, 0, _, _ => none
  | [], _ + 1, _, _ => none
  | b :: bs, fuel + 1, acc, mult =>
    let acc := acc + (b &&& 0x7F) * mult
    if b &&& 0x80 = 0 then some (acc, 0 + 1)
    else
      match decode_length_go bs fuel acc (mult * 128) with
      | some (v, used) => some (v, used + 1)
      | none => none

/-- Entry point of the remaining-length decoding loop: 4 iterations
maximum, accumulator 0, multiplier 1. -/
def decode_length (bs : List Nat) : Option (Nat × Nat) :=
  decode_length_go bs 4 0 1

/-- `MQTTClient._generate_packet_id` (mqtt_client.py lines 107-115):
`self.pid = (self.pid + 1) % 65536; return self.pid`. -/
def generate_packet_id (pid : Nat) : Nat := (pid + 1) % 65536

end EspSensors

namespace EspSensors

/-! ## Helper lemmas about the variable-length-integer codec -/

/-- Value of a variable-length-integer byte list: the base-128 digits are
the low 7 bits of each byte, little-endian. -/
def vlq_val : List Nat → Nat
  | [] => 0
  | b :: bs => (b &&& 0x7F) + 128 * vlq_val bs

theorem land_lor_distrib (a b c : Nat) : (a ||| b) &&& c = (a &&& c) ||| (b &&& c) := by
  apply Nat.eq_of_testBit_eq
  intro i
  simp [Nat.testBit_land, Nat.testBit_lor, Bool.and_or_distrib_right]

theorem small_and_7F {b : Nat} (hb : b < 128) : b &&& 0x7F = b := by
  have := Nat.and_pow_two_sub_one_eq_mod b 7
  simpa [Nat.mod_eq_of_lt hb] using this

theorem small_and_80 {b : Nat} (hb : b < 128) : b &&& 0x80 = 0 := by
  have h7 : b.testBit 7 = false := Nat.testBit_eq_false_of_lt (by simpa using hb)
  have := Nat.and_two_pow b 7
  simpa [h7] using this

theorem cont_and_7F {b : Nat} (hb : b < 128) : (b ||| 0x80) &&& 0x7F = b := by
  rw [land_lor_distrib, small_and_7F hb, show (0x80 : Nat) &&& 0x7F = 0 from by decide]
  simp

theorem cont_and_80 (b : Nat) : (b ||| 0x80) &&& 0x80 = 0x80 := by
  rw [land_lor_distrib, show (0x80 : Nat) &&& 0x80 = 0x80 from by decide]
  apply Nat.eq_of_testBit_eq
  intro i
  simp [Nat.testBit_lor, Nat.testBit_land]

theorem encode_length_pos_of (n : Nat) (h : n / 128 > 0) :
    encode_length n = (n % 128 ||| 0x80) :: encode_length (n / 128) := by
  rw [encode_length]
  simp only [dif_pos h]

theorem encode_length_small (n : Nat) (h : ¬ n / 128 > 0) :
    encode_length n = [n % 128] := by
  rw [encode_length]
  simp only [dif_neg h]

theorem vlq_val_encode (n : Nat) : vlq_val (encode_length n) = n := by
  induction n using encode_length.induct with
  | case1 n rest h ih =>
    rw [encode_length_pos_of n h]
    simp only [vlq_val, cont_and_7F (Nat.mod_lt n (by norm_num)), ih]
    omega
  | case2 n rest h =>
    rw [encode_length_small n h]
    simp only [vlq_val]
    rw [small_and_7F (Nat.mod_lt n (by omega))]
    omega

theorem encode_length_ne_nil (n : Nat) : encode_length n ≠ [] := by
  rw [encode_length]
  by_cases h : n / 128 > 0 <;> simp [h]

theorem encode_length_len_le (k n : Nat) (hk : 1 ≤ k) (h : n < 128 ^ k) :
    (encode_length n).length ≤ k := by
  induction k generalizing n with
  | zero => omega
  | succ k ih =>
    by_cases hr : n / 128 > 0
    · rw [encode_length_pos_of n hr]
      have hk1 : 1 ≤ k := by
        by_contra hk0
        have hke : k = 0 := by omega
        subst hke
        simp only [pow_succ, pow_zero, one_mul] at h
        omega
      have hlt : n / 128 < 128 ^ k := by
        rw [Nat.div_lt_iff_lt_mul (by norm_num)]
        calc n < 128 ^ (k + 1) := h
        _ = 128 ^ k * 128 := by ring
      simpa using ih (n / 128) hk1 hlt
    · rw [encode_length_small n hr]
      simp only [List.length_singleton]
      omega

theorem encode_length_len_ge (k n : Nat) (h : 128 ^ k ≤ n) :
    k + 1 ≤ (encode_length n).length := by
  induction k generalizing n with
  | zero =>
    have h1 := encode_length_ne_nil n
    have h2 : 0 < (encode_length n).length := List.length_pos.mpr h1
    omega
  | succ k ih =>
    have hr : n / 128 > 0 := by
      have h128 : 128 ≤ n := le_trans (by
        calc (128 : Nat) = 128 ^ 1 := (pow_one 128).symm
        _ ≤ 128 ^ (k+1) := Nat.pow_le_pow_right (by norm_num) (by omega)) h
      omega
    rw [encode_length_pos_of n hr]
    have hge : 128 ^ k ≤ n / 128 := by
      rw [Nat.le_div_iff_mul_le (by norm_num)]
      calc 128 ^ k * 128 = 128 ^ (k + 1) := by ring
      _ ≤ n := h
    simpa using ih (n / 128) hge

theorem decode_go_encode (n : Nat) :
    ∀ (fuel acc mult : Nat) (extra : List Nat),
    (encode_length n).length ≤ fuel →
    decode_length_go (encode_length n ++ extra) fuel acc mult =
      some (acc + n * mult, (encode_length n).length) := by
  induction n using Nat.strong_induction_on with
  | _ n ihs =>
    intro fuel acc mult extra hfuel
    by_cases h : n / 128 > 0
    · rw [encode_length_pos_of n h] at hfuel ⊢
      match fuel, hfuel with
      | fuel + 1, hfuel =>
        simp only [List.cons_append, decode_length_go,
          cont_and_7F (Nat.mod_lt n (by norm_num)), cont_and_80]
        rw [if_neg (by norm_num)]
        simp only [List.append_eq]
        have hdiv : n / 128 < n := Nat.div_lt_self (by omega) (by norm_num)
        rw [ihs (n / 128) hdiv fuel (acc + n % 128 * mult) (mult * 128) extra
          (by simpa using hfuel)]
        have harith : acc + n % 128 * mult + n / 128 * (mult * 128) = acc + n * mult := by
          nlinarith [Nat.mod_add_div n 128]
        rw [harith]
        simp [List.length_cons]
    · rw [encode_length_small n h] at hfuel ⊢
      match fuel, hfuel with
      | fuel + 1, hfuel =>
        have hn : n < 128 := by omega
        simp only [List.cons_append, List.nil_append, decode_length_go,
          small_and_7F (show n % 128 < 128 from Nat.mod_lt n (by omega))]
        rw [if_pos]
        · rw [Nat.mod_eq_of_lt hn]
          simp
        · rw [small_and_80 (show n % 128 < 128 from Nat.mod_lt n (by omega))]

theorem encode_length_cont_bits (n : Nat) :
    (∀ b ∈ (encode_length n).dropLast, b &&& 0x80 ≠ 0) ∧
    (∀ b, (encode_length n).getLast? = some b → b &&& 0x80 = 0) := by
  induction n using Nat.strong_induction_on with
  | _ n ih =>
    by_cases h : n / 128 > 0
    · rw [encode_length_pos_of n h]
      obtain ⟨c, l', hcl⟩ := List.exists_cons_of_ne_nil (encode_length_ne_nil (n / 128))
      have ihd := ih (n / 128) (Nat.div_lt_self (by omega) (by norm_num))
      rw [hcl] at ihd
      constructor
      · intro b hb
        rw [hcl, List.dropLast_cons_of_ne_nil (by simp)] at hb
        rcases List.mem_cons.mp hb with hb | hb
        · rw [hb, cont_and_80]
          norm_num
        · exact ihd.1 b hb
      · intro b hb
        rw [hcl, List.getLast?_cons_cons] at hb
        exact ihd.2 b hb
    · rw [encode_length_small n h]
      refine ⟨by simp, ?_⟩
      intro b hb
      simp only [List.getLast?_singleton, Option.some.injEq] at hb
      rw [← hb]
      exact small_and_80 (Nat.mod_lt n (by omega))

/-! ## Claims about the remaining-length codec -/

/-- C4: the remaining-length encoder produces the canonical MQTT
variable-length integer: the four concrete encodings listed in the spec,
and in general base-128 digits (`vlq_val` recovers the value from the low
7 bits of each byte) with the continuation bit `0x80` set on every byte
except the last, where it is clear. -/
theorem claim_C4_remaining_length_canonical :
    encode_length 0 = [0x00] ∧ encode_length 127 = [0x7F] ∧
    encode_length 128 = [0x80, 0x01] ∧ encode_length 16384 = [0x80, 0x80, 0x01] ∧
    ∀ n : Nat, vlq_val (encode_length n) = n ∧
      (∀ b ∈ (encode_length n).dropLast, b &&& 0x80 ≠ 0) ∧
      (∀ b, (encode_length n).getLast? = some b → b &&& 0x80 = 0) := by
  refine ⟨by simp [encode_length], by simp [encode_length], ?_, ?_, ?_⟩
  · simp [encode_length]
  · simp [encode_length]
  · intro n
    exact ⟨vlq_val_encode n, (encode_length_cont_bits n).1, (encode_length_cont_bits n).2⟩

/-- C5 counterexample: `_encode_length` has no bound check at all.  At
268,435,456 (one past the 4-byte maximum) it does not fail: it returns a
5-byte encoding. -/
theorem claim_C5_counterexample :
    encode_length 268435456 = [0x80, 0x80, 0x80, 0x80, 0x01] := by
  simp [encode_length]

/-- C5 amended: for every n greater than 268,435,455 the encoder does not
signal any error; it totally returns a base-128 encoding of n that is at
least 5 bytes long, exceeding the 4-byte MQTT maximum. -/
theorem claim_C5_amended_no_bound_check (n : Nat) (h : 268435455 < n) :
    vlq_val (encode_length n) = n ∧ 5 ≤ (encode_length n).length := by
  refine ⟨vlq_val_encode n, ?_⟩
  have : 128 ^ 4 ≤ n := by norm_num at h ⊢; omega
  simpa using encode_length_len_ge 4 n this

/-- Witness for the amended C5 at the concrete input 268,435,456. -/
theorem claim_C5_amended_witness :
    vlq_val (encode_length 268435456) = 268435456 ∧
      5 ≤ (encode_length 268435456).length :=
  claim_C5_amended_no_bound_check 268435456 (by norm_num)

/-- C10: remaining-length encode/decode round-trip: for every
n < 268,435,456, the decoding loop of `_recv_packet`, run on
`_encode_length n` followed by any further stream bytes, reconstructs
exactly n and consumes exactly the encoded bytes. -/
theorem claim_C10_remaining_length_roundtrip (n : Nat) (extra : List Nat)
    (h : n < 268435456) :
    decode_length (encode_length n ++ extra) =
      some (n, (encode_length n).length) := by
  have hlen : (encode_length n).length ≤ 4 := by
    apply encode_length_len_le 4 n (by norm_num)
    norm_num
    omega
  have := decode_go_encode n 4 0 1 extra hlen
  simpa [decode_length] using this

/-- Witness for C10 at n = 16384 with a trailing stream byte. -/
theorem claim_C10_witness :
    decode_length (encode_length 16384 ++ [0x37]) =
      some (16384, (encode_length 16384).length) :=
  claim_C10_remaining_length_roundtrip 16384 [0x37] (by norm_num)

end EspSensors

namespace EspSensors

/-! ## Claims about the PUBLISH body codec -/

/-- C1: PUBLISH round-trip.  For every topic (at most 65535 bytes, the
limit `struct.pack("!H", ...)` imposes before a packet can exist at all),
payload, retain flag and QoS in {0,1}, decoding the PUBLISH body that
`publish` encodes yields exactly the original topic, the packet id when
`qos > 0` (none when `qos = 0`), and the original payload bytes.  The
packet id allocated at encode time always satisfies `pid ≤ 65535`
because `_generate_packet_id` reduces modulo 65536. -/
theorem claim_C1_publish_roundtrip (topic msg : List Nat) (retain : Bool)
    (qos pid : Nat) (htopic : topic.length ≤ 65535) (hpid : pid ≤ 65535)
    (hqos : qos ≤ 1) :
    ∃ body, encode_publish_body topic msg qos pid = some body ∧
      decode_publish body qos =
        .ok (topic, (if 0 < qos then some pid else none), msg) := by
  have htl : topic.length < 65536 := by omega
  have hpl : pid < 65536 := by omega
  set tl := topic.length with htl_def
  set rest : List Nat := (if 0 < qos then [pid / 256, pid % 256] else []) ++ msg
    with hrest
  have hbody : encode_publish_body topic msg qos pid =
      some (tl / 256 :: tl % 256 :: (topic ++ rest)) := by
    by_cases hq : 0 < qos
    · simp only [encode_publish_body, encode_string, pack_u16, if_pos htl, if_pos hpl,
        if_pos hq, hrest]
      simp [List.append_assoc, hq]
    · simp only [encode_publish_body, encode_string, pack_u16, if_pos htl,
        if_neg hq, hrest]
      simp [List.append_assoc, hq]
  refine ⟨_, hbody, ?_⟩
  set body : List Nat := tl / 256 :: tl % 256 :: (topic ++ rest) with hbody_def
  have hlen : body.length = 2 + tl + rest.length := by
    simp [hbody_def, htl_def]
    omega
  have htlc : body.headI * 256 + (body.drop 1).headI = tl := by
    have h1 : body.headI = tl / 256 := rfl
    have h2 : (body.drop 1).headI = tl % 256 := rfl
    rw [h1, h2]
    omega
  have hdrop2 : body.drop 2 = topic ++ rest := rfl
  have htake : (topic ++ rest).take tl = topic := List.take_left' rfl
  have hA : body.drop (2 + tl) = rest := by
    rw [show 2 + tl = tl + 1 + 1 from by omega]
    show (topic ++ rest).drop tl = rest
    exact List.drop_left' rfl
  have hB : body.drop (2 + tl + 1) = rest.drop 1 := by
    rw [← List.drop_drop, hA]
  have hC : body.drop (2 + tl + 2) = rest.drop 2 := by
    rw [← List.drop_drop, hA]
  unfold decode_publish
  rw [if_neg (by rw [hlen]; omega)]
  rw [htlc]
  rw [if_neg (by rw [hlen]; omega)]
  by_cases hq : 0 < qos
  · have hrestq : rest = pid / 256 :: pid % 256 :: msg := by
      simp [hrest, hq]
    rw [if_pos hq]
    rw [if_neg (by rw [hlen, hrestq]; simp only [List.length_cons]; omega)]
    rw [hdrop2, htake, hA, hB, hC, hrestq]
    simp only [List.headI_cons, List.drop_succ_cons, List.drop_zero, if_pos hq]
    have : pid / 256 * 256 + pid % 256 = pid := by omega
    rw [this]
    rfl
  · have hrestq : rest = msg := by simp [hrest, hq]
    rw [if_neg hq]
    rw [hdrop2, htake, hA, hrestq]
    simp [hq]
    rfl

/-- Witness for C1 at topic "a" = [97], message [1,2], retain true,
qos 1, pid 7. -/
theorem claim_C1_witness :
    ∃ body, encode_publish_body [97] [1, 2] 1 7 = some body ∧
      decode_publish body 1 = .ok ([97], (if 0 < 1 then some 7 else none), [1, 2]) :=
  claim_C1_publish_roundtrip [97] [1, 2] true 1 7 (by decide) (by decide) (by decide)

/-- The guarded decoder of `mqtt_client.py` `check_msg` rejects every
truncated PUBLISH body with a typed error: a body shorter than 2 bytes,
shorter than 2 plus its declared topic length, or (when qos > 0)
shorter than additionally required for the 2-byte packet id.  The final
conjunct shows no out-of-bounds access is possible on success either: a
successful decode implies the body is at least as long as everything
that was read.  This is the behaviour the spec demands; the duplicate
decoder in mqtt.py does not share it (see the C2 theorem below). -/
theorem decode_truncated_guarded (payload : List Nat) (qos : Nat) :
    (payload.length < 2 → decode_publish payload qos = .error .tooShortForTopicLen) ∧
    (2 ≤ payload.length →
      payload.length < 2 + (payload.headI * 256 + (payload.drop 1).headI) →
      decode_publish payload qos = .error .tooShortForTopic) ∧
    (0 < qos → 2 + (payload.headI * 256 + (payload.drop 1).headI) ≤ payload.length →
      payload.length < 2 + (payload.headI * 256 + (payload.drop 1).headI) + 2 →
      decode_publish payload qos = .error .tooShortForPid) ∧
    (∀ t p m, decode_publish payload qos = .ok (t, p, m) →
      2 + t.length + (if 0 < qos then 2 else 0) ≤ payload.length) := by
  refine ⟨?_, ?_, ?_, ?_⟩
  · intro h
    simp [decode_publish, if_pos h]
  · intro h2 hlt
    unfold decode_publish
    rw [if_neg (by omega), if_pos hlt]
  · intro hq hge hlt
    unfold decode_publish
    rw [if_neg (by omega), if_neg (by omega), if_pos hq, if_pos hlt]
  · intro t p m hok
    unfold decode_publish at hok
    by_cases h1 : payload.length < 2
    · rw [if_pos h1] at hok
      exact absurd hok (by simp)
    · rw [if_neg h1] at hok
      set tl := payload.headI * 256 + (payload.drop 1).headI with htl
      by_cases h2 : payload.length < 2 + tl
      · rw [if_pos h2] at hok
        exact absurd hok (by simp)
      · rw [if_neg h2] at hok
        by_cases hq : 0 < qos
        · rw [if_pos hq] at hok
          by_cases h3 : payload.length < 2 + tl + 2
          · rw [if_pos h3] at hok
            exact absurd hok (by simp)
          · rw [if_neg h3] at hok
            have ht : t = (payload.drop 2).take tl := by
              have := congrArg (fun r => match r with
                | Except.ok (a, _, _) => a
                | Except.error _ => []) hok
              simpa using this.symm
            have hlt : t.length = min tl (payload.length - 2) := by
              rw [ht]
              simp [List.length_take, List.length_drop]
            rw [if_pos hq]
            omega
        · rw [if_neg hq] at hok
          have ht : t = (payload.drop 2).take tl := by
            have := congrArg (fun r => match r with
              | Except.ok (a, _, _) => a
              | Except.error _ => []) hok
            simpa using this.symm
          have hlt : t.length = min tl (payload.length - 2) := by
            rw [ht]
            simp [List.length_take, List.length_drop]
          rw [if_neg hq]
          omega

/-- The guarded decoder evaluated on three concrete truncated bodies,
one per typed error. -/
theorem decode_truncated_guarded_eval :
    decode_publish [7] 0 = .error .tooShortForTopicLen ∧
    decode_publish [0, 5, 1] 0 = .error .tooShortForTopic ∧
    decode_publish [0, 1, 65, 9] 1 = .error .tooShortForPid :=
  ⟨(decode_truncated_guarded [7] 0).1 (by decide),
   (decode_truncated_guarded [0, 5, 1] 0).2.1 (by decide) (by decide),
   (decode_truncated_guarded [0, 1, 65, 9] 1).2.2.1 (by decide) (by decide) (by decide)⟩

/-- C2: the claim states every truncated PUBLISH body fails with a typed
ProtocolError and no out-of-bounds read — this is what the spec calls
the most safety-critical check and what the guarded `check_msg` in
mqtt_client.py implements, but the duplicate `check_msg` in mqtt.py
(which the deployed `ESP32MQTTClient.read_topic` path uses) has no
length guards: the body [0, 5, 65] (declared topic length 5, one topic
byte) at qos 0 is silently accepted with a truncated topic [65] and an
empty message, no error of any kind; a 1-byte body raises only the
untyped struct.error.  The guarded duplicate returns the typed errors
the claim requires at both inputs, showing the mqtt.py copy is the
slip. -/
theorem claim_C2_mqtt_py_check_msg_unguarded :
    decode_publish_unguarded [0, 5, 65] 0 = .ok ([65], none, []) ∧
    decode_publish_unguarded [7] 0 = .error "struct.error" ∧
    decode_publish [0, 5, 65] 0 = .error .tooShortForTopic ∧
    decode_publish [7] 0 = .error .tooShortForTopicLen :=
  ⟨rfl, rfl, rfl, rfl⟩

end EspSensors

namespace EspSensors

/-! ## Transport session model

The mutable `MQTTClient` object of `mqtt_client.py` becomes a
`ClientState`; `time.time()` becomes an explicit `now` argument; each
`_recv_packet` call consumes one entry of an explicit list of receive
results (an empty list behaves as a socket timeout).  `_send_packet` is
assumed to succeed (socket send failures are not the subject of any
claim); Python exceptions become an `Except String` result carried
together with the state the object had when the exception was raised. -/

/-- One `_recv_packet` outcome: `(None, None)` on socket timeout, or a
packet type byte with its payload. -/
inductive RecvResult where
  | timeout
  | packet (ptype : Nat) (payload : List Nat)
  deriving DecidableEq, Repr

/-- The mutable attributes of `MQTTClient` the claims are about, plus the
immutable `keepalive` connection parameter. -/
structure ClientState where
  connected : Bool
  pid : Nat
  subscriptions : List (List Nat × Nat)
  last_ping : Nat
  keepalive : Nat
  deriving DecidableEq, Repr

/-- Result of one method call: the returned value or raised exception,
the state of the client object afterwards, and the unconsumed receive
results. -/
structure Outcome (α : Type) where
  result : Except String α
  state : ClientState
  rest : List RecvResult
  deriving Repr

/-- Consume one receive result; an exhausted list is a timeout. -/
def recv1 : List RecvResult → RecvResult × List RecvResult
  | [] => (.timeout, [])
  | r :: rs => (r, rs)

/-- Python dict assignment `d[k] = v` on an insertion-ordered
association list. -/
def dict_set (m : List (List Nat × Nat)) (k : List Nat) (v : Nat) :
    List (List Nat × Nat) :=
  if m.any (fun e => decide (e.1 = k)) then
    m.map (fun e => if e.1 = k then (k, v) else e)
  else m ++ [(k, v)]

/-- `MQTTClient.ping` (mqtt_client.py lines 359-378).  When not
connected the body is skipped entirely (`if self.connected:` guards the
whole method).  On receive timeout a warning is printed and `last_ping`
is still updated; on a non-PINGRESP packet the client is marked
disconnected and `MQTTException` is raised. -/
def ping (now : Nat) (s : ClientState) (recvs : List RecvResult) :
    Outcome Unit :=
  if s.connected then
    let (r, rest) := recv1 recvs
    match r with
    | .timeout => ⟨.ok (), { s with last_ping := now }, rest⟩
    | .packet t _ =>
      if t ≠ PINGRESP then
        ⟨.error "No PINGRESP received", { s with connected := false }, rest⟩
      else ⟨.ok (), { s with last_ping := now }, rest⟩
  else ⟨.ok (), s, recvs⟩

/-- `MQTTClient.publish` (mqtt_client.py lines 380-435): connection
check, implicit keepalive ping, topic encoding (`struct.error` when the
topic exceeds 65535 bytes), packet-id allocation for qos > 0, send, and
for qos = 1 the wait for PUBACK (timeout is only a warning; a wrong
packet type raises). -/
def publish (topic msg : List Nat) (retain : Bool) (qos : Nat) (now : Nat)
    (s : ClientState) (recvs : List RecvResult) : Outcome Unit :=
  if ¬s.connected then ⟨.error "Not connected to broker (publish)", s, recvs⟩
  else
    let ka := if 0 < s.keepalive ∧ s.keepalive ≤ now - s.last_ping
      then ping now s recvs else ⟨.ok (), s, recvs⟩
    match ka with
    | ⟨.error e, s1, r1⟩ => ⟨.error e, s1, r1⟩
    | ⟨.ok _, s1, r1⟩ =>
      match encode_string topic with
      | none => ⟨.error "struct.error", s1, r1⟩
      | some _enc =>
        let s2 := if 0 < qos then { s1 with pid := generate_packet_id s1.pid } else s1
        if qos = 1 then
          let (r, rest) := recv1 r1
          match r with
          | .timeout => ⟨.ok (), s2, rest⟩
          | .packet t _ =>
            if t ≠ PUBACK then ⟨.error "No PUBACK received", s2, rest⟩
            else ⟨.ok (), s2, rest⟩
        else ⟨.ok (), s2, r1⟩

/-- `MQTTClient.subscribe` (mqtt_client.py lines 437-482): connection
check, implicit keepalive ping, packet-id allocation, topic encoding,
send, wait for SUBACK.  Note the source stores the subscription after
the wait both when a SUBACK arrived and when the wait timed out (the
timeout branch only prints a warning and falls through to the store);
only a non-SUBACK response raises before the store. -/
def subscribe (topic : List Nat) (qos : Nat) (now : Nat) (s : ClientState)
    (recvs : List RecvResult) : Outcome Unit :=
  if ¬s.connected then ⟨.error "Not connected to broker (subscribe)", s, recvs⟩
  else
    let ka := if 0 < s.keepalive ∧ s.keepalive ≤ now - s.last_ping
      then ping now s recvs else ⟨.ok (), s, recvs⟩
    match ka with
    | ⟨.error e, s1, r1⟩ => ⟨.error e, s1, r1⟩
    | ⟨.ok _, s1, r1⟩ =>
      let s2 := { s1 with pid := generate_packet_id s1.pid }
      match encode_string topic with
      | none => ⟨.error "struct.error", s2, r1⟩
      | some _enc =>
        let (r, rest) := recv1 r1
        match r with
        | .timeout =>
          ⟨.ok (), { s2 with subscriptions := dict_set s2.subscriptions topic qos },
            rest⟩
        | .packet t _ =>
          if t ≠ SUBACK then ⟨.error "No SUBACK received", s2, rest⟩
          else
            ⟨.ok (), { s2 with subscriptions := dict_set s2.subscriptions topic qos },
              rest⟩

/-- One client operation together with the wall-clock time at which it
runs and the receive results its socket delivers. -/
inductive Action where
  | publish (topic msg : List Nat) (retain : Bool) (qos : Nat)
  | subscribe (topic : List Nat) (qos : Nat)
  | ping
  deriving DecidableEq, Repr

/-- State after one operation (the raised exception, if any, does not
undo the mutations made before the raise). -/
def runAction : Action → Nat → List RecvResult → ClientState → ClientState
  | .publish t m r q, now, recvs, s => (publish t m r q now s recvs).state
  | .subscribe t q, now, recvs, s => (subscribe t q now s recvs).state
  | .ping, now, recvs, s => (ping now s recvs).state

/-- State after a sequence of operations. -/
def run : List (Action × Nat × List RecvResult) → ClientState → ClientState
  | [], s => s
  | (a, now, recvs) :: rest, s => run rest (runAction a now recvs s)

end EspSensors

namespace EspSensors

/-! ## Session-level lemmas: packet-id preservation and bounds -/

theorem ping_pid (now : Nat) (s : ClientState) (recvs : List RecvResult) :
    (ping now s recvs).state.pid = s.pid := by
  unfold ping
  by_cases hc : s.connected
  · rw [if_pos hc]
    cases recvs with
    | nil => simp [recv1]
    | cons r rs =>
      cases r with
      | timeout => simp [recv1]
      | packet t p =>
        simp only [recv1]
        by_cases ht : t ≠ PINGRESP
        · simp [ht]
        · simp [ht]
  · rw [if_neg hc]

theorem gen_le (x : Nat) : generate_packet_id x ≤ 65535 :=
  Nat.le_of_lt_succ (Nat.mod_lt _ (by norm_num))

theorem publish_pid_le (topic msg : List Nat) (retain : Bool) (qos now : Nat)
    (s : ClientState) (recvs : List RecvResult) (h : s.pid ≤ 65535) :
    (publish topic msg retain qos now s recvs).state.pid ≤ 65535 := by
  unfold publish
  by_cases hc : ¬s.connected
  · rw [if_pos hc]
    exact h
  · rw [if_neg hc]
    have hka : (if 0 < s.keepalive ∧ s.keepalive ≤ now - s.last_ping
        then ping now s recvs else ⟨.ok (), s, recvs⟩).state.pid = s.pid := by
      split
      · exact ping_pid now s recvs
      · rfl
    rcases hk : (if 0 < s.keepalive ∧ s.keepalive ≤ now - s.last_ping
        then ping now s recvs else ⟨.ok (), s, recvs⟩) with ⟨res, s1, r1⟩
    rw [hk] at hka
    simp only at hka
    cases res with
    | error e => simpa using (hka ▸ h)
    | ok a =>
      simp only
      cases hes : encode_string topic with
      | none => simpa using (hka ▸ h)
      | some enc =>
        simp only
        by_cases hq : 0 < qos
        · by_cases hq1 : qos = 1
          · simp only [if_pos hq, if_pos hq1]
            rcases recv1 r1 with ⟨r, rest⟩
            cases r with
            | timeout => simpa using gen_le s1.pid
            | packet t p =>
              by_cases ht : t ≠ PUBACK
              · simp [ht, gen_le]
              · simp [ht, gen_le]
          · simp [if_pos hq, if_neg hq1, gen_le]
        · by_cases hq1 : qos = 1
          · omega
          · simp only [if_neg hq, if_neg hq1]
            simpa using (hka ▸ h)

theorem subscribe_pid_le (topic : List Nat) (qos now : Nat)
    (s : ClientState) (recvs : List RecvResult) (h : s.pid ≤ 65535) :
    (subscribe topic qos now s recvs).state.pid ≤ 65535 := by
  unfold subscribe
  by_cases hc : ¬s.connected
  · rw [if_pos hc]
    exact h
  · rw [if_neg hc]
    have hka : (if 0 < s.keepalive ∧ s.keepalive ≤ now - s.last_ping
        then ping now s recvs else ⟨.ok (), s, recvs⟩).state.pid = s.pid := by
      split
      · exact ping_pid now s recvs
      · rfl
    rcases hk : (if 0 < s.keepalive ∧ s.keepalive ≤ now - s.last_ping
        then ping now s recvs else ⟨.ok (), s, recvs⟩) with ⟨res, s1, r1⟩
    rw [hk] at hka
    simp only at hka
    cases res with
    | error e => simpa using (hka ▸ h)
    | ok a =>
      simp only
      cases hes : encode_string topic with
      | none => simpa using gen_le s1.pid
      | some enc =>
        simp only
        rcases recv1 r1 with ⟨r, rest⟩
        cases r with
        | timeout => simpa using gen_le s1.pid
        | packet t p =>
          by_cases ht : t ≠ SUBACK
          · simp [ht, gen_le]
          · simp [ht, gen_le]

theorem run_pid_le (ops : List (Action × Nat × List RecvResult))
    (s : ClientState) (h : s.pid ≤ 65535) : (run ops s).pid ≤ 65535 := by
  induction ops generalizing s with
  | nil => exact h
  | cons op rest ih =>
    rcases op with ⟨a, now, recvs⟩
    cases a with
    | publish t m r q =>
      exact ih _ (publish_pid_le t m r q now s recvs h)
    | subscribe t q =>
      exact ih _ (subscribe_pid_le t q now s recvs h)
    | ping =>
      apply ih
      rw [runAction, ping_pid]
      exact h

/-! ## Claims about the session state machine -/

/-- C3 counterexample: `ping` on a Disconnected session does not fail
with a ConnectionError — `if self.connected:` guards the whole method
body, so the call silently returns with the state unchanged. -/
theorem claim_C3_counterexample :
    ((⟨false, 0, [], 0, 60⟩ : ClientState).connected = false) ∧
    (ping 5 ⟨false, 0, [], 0, 60⟩ []).result = .ok () ∧
    (ping 5 ⟨false, 0, [], 0, 60⟩ []).state = ⟨false, 0, [], 0, 60⟩ :=
  ⟨rfl, rfl, rfl⟩

/-- C3 amended: on a Disconnected session, `publish` and `subscribe`
fail with the connection error and leave the whole state (in particular
the packet-id counter) unchanged; `ping`, however, is a silent no-op
that also leaves the state unchanged, rather than failing. -/
theorem claim_C3_amended_disconnected (topic msg : List Nat) (retain : Bool)
    (qos now : Nat) (s : ClientState) (recvs : List RecvResult)
    (h : s.connected = false) :
    publish topic msg retain qos now s recvs =
      ⟨.error "Not connected to broker (publish)", s, recvs⟩ ∧
    subscribe topic qos now s recvs =
      ⟨.error "Not connected to broker (subscribe)", s, recvs⟩ ∧
    ping now s recvs = ⟨.ok (), s, recvs⟩ := by
  unfold publish subscribe ping
  rw [h]
  simp

/-- Witness for the amended C3 on a concrete disconnected session. -/
theorem claim_C3_amended_witness :
    publish [97] [1] false 1 9 ⟨false, 3, [], 0, 60⟩ [] =
      ⟨.error "Not connected to broker (publish)", ⟨false, 3, [], 0, 60⟩, []⟩ ∧
    subscribe [97] 0 9 ⟨false, 3, [], 0, 60⟩ [] =
      ⟨.error "Not connected to broker (subscribe)", ⟨false, 3, [], 0, 60⟩, []⟩ ∧
    ping 9 ⟨false, 3, [], 0, 60⟩ [] = ⟨.ok (), ⟨false, 3, [], 0, 60⟩, []⟩ :=
  claim_C3_amended_disconnected [97] [1] false 1 9 ⟨false, 3, [], 0, 60⟩ [] rfl

/-- C6 counterexample: when no SUBACK arrives (the receive times out),
`subscribe` still records the topic in the subscription table: starting
from an empty table, a subscribe whose only receive result is a timeout
returns successfully with the topic stored. -/
theorem claim_C6_counterexample :
    ((⟨true, 0, [], 5, 60⟩ : ClientState).subscriptions = []) ∧
    (subscribe [116] 0 5 ⟨true, 0, [], 5, 60⟩ [RecvResult.timeout]).result = .ok () ∧
    (subscribe [116] 0 5 ⟨true, 0, [], 5, 60⟩ [RecvResult.timeout]).state.subscriptions
      = [([116], 0)] :=
  ⟨rfl, rfl, rfl⟩

/-- C6 amended: `subscribe` records the topic-to-QoS entry both after a
confirmed SUBACK and when the wait for the SUBACK times out (the timeout
branch only prints a warning and falls through to the store); only a
response with a packet type other than SUBACK raises and leaves the
subscription table unchanged.  Stated for a connected session whose
keepalive ping is not due and whose topic fits the length prefix. -/
theorem claim_C6_amended_subscribe_records (topic : List Nat) (qos now : Nat)
    (s : ClientState) (rest : List RecvResult)
    (hc : s.connected = true)
    (hka : ¬(0 < s.keepalive ∧ s.keepalive ≤ now - s.last_ping))
    (htopic : topic.length < 65536) :
    (∀ t p, t ≠ SUBACK →
      subscribe topic qos now s (.packet t p :: rest) =
        ⟨.error "No SUBACK received",
          { s with pid := generate_packet_id s.pid }, rest⟩) ∧
    (∀ p, subscribe topic qos now s (.packet SUBACK p :: rest) =
        ⟨.ok (), { s with
                   pid := generate_packet_id s.pid,
                   subscriptions := dict_set s.subscriptions topic qos }, rest⟩) ∧
    (subscribe topic qos now s (.timeout :: rest) =
        ⟨.ok (), { s with
                   pid := generate_packet_id s.pid,
                   subscriptions := dict_set s.subscriptions topic qos }, rest⟩) := by
  have hcond : ¬(¬(s.connected = true)) := by simp [hc]
  refine ⟨?_, ?_, ?_⟩
  · intro t p ht
    unfold subscribe
    rw [if_neg hcond, if_neg hka]
    simp [encode_string, pack_u16, if_pos htopic, recv1, ht]
  · intro p
    unfold subscribe
    rw [if_neg hcond, if_neg hka]
    simp [encode_string, pack_u16, if_pos htopic, recv1]
  · unfold subscribe
    rw [if_neg hcond, if_neg hka]
    simp [encode_string, pack_u16, if_pos htopic, recv1]

/-- Witness for the amended C6: concrete subscribe with a timed-out
SUBACK wait stores the subscription. -/
theorem claim_C6_amended_witness :
    subscribe [116] 0 0 ⟨true, 0, [], 0, 60⟩ [RecvResult.timeout] =
      ⟨.ok (), ⟨true, 1, [([116], 0)], 0, 60⟩, []⟩ :=
  (claim_C6_amended_subscribe_records [116] 0 0 ⟨true, 0, [], 0, 60⟩ []
    rfl (by decide) (by decide)).2.2

/-- C9: the packet-id counter stays in [0, 65535] across every sequence
of publish/subscribe/ping operations, the generator reduces modulo
65536, and from 65535 the next generated id is 0. -/
theorem claim_C9_packet_id_wraps :
    (∀ (ops : List (Action × Nat × List RecvResult)) (s : ClientState),
      s.pid ≤ 65535 → (run ops s).pid ≤ 65535) ∧
    generate_packet_id 65535 = 0 ∧
    (∀ p, generate_packet_id p = (p + 1) % 65536) :=
  ⟨fun ops s h => run_pid_le ops s h, rfl, fun _ => rfl⟩

/-- Witness for C9: a subscribe (timeout) followed by a QoS-1 publish
(acknowledged) starting with the counter at its maximum 65535. -/
theorem claim_C9_witness :
    (run [(Action.subscribe [116] 0, 0, [RecvResult.timeout]),
          (Action.publish [97] [1] false 1, 0, [RecvResult.packet PUBACK []])]
      ⟨true, 65535, [], 0, 60⟩).pid ≤ 65535 :=
  claim_C9_packet_id_wraps.1 _ _ (by decide)

end EspSensors

namespace EspSensors

/-! ## Remote configuration sync (`check_config_update`, mqtt.py lines 804-886)

The `ESP32MQTTClient` branch of `check_config_update` is modelled: the
single `read_topic` reply becomes an explicit `Option` of payload bytes,
`json.loads` becomes an abstract `parse` function into a Python-dict
model (association list with integer values; only the "version" entry is
ever consulted), and the enclosing `try/except` that returns the current
configuration on any error is reflected by `parse` returning `none`.
The function is total: no error can reach the caller. -/

/-- `d.get(k, dflt)` on a Python dict modelled as an association list. -/
def dget (d : List (String × Int)) (k : String) (dflt : Int) : Int :=
  match d.find? (fun e => decide (e.1 = k)) with
  | some e => e.2
  | none => dflt

/-- `check_config_update` (mqtt.py lines 804-886, ESP32MQTTClient
branch): returns `current` when the client is absent or the feature is
off; otherwise reads the config topic (`readResult`), parses a non-empty
reply, and returns the received document only when it is truthy (a
non-empty dict) and its version is strictly newer than the current
one. -/
def check_config_update (clientSome loadFromMqtt : Bool)
    (readResult : Option (List Nat))
    (parse : List Nat → Option (List (String × Int)))
    (current : List (String × Int)) : List (String × Int) :=
  if ¬clientSome ∨ ¬loadFromMqtt then current
  else
    let received : Option (List (String × Int)) :=
      match readResult with
      | none => none
      | some msg => if msg ≠ [] then parse msg else none
    match received with
    | some rc =>
      if rc ≠ [] ∧ dget rc "version" 0 > dget current "version" 0 then rc
      else current
    | none => current

/-- C7: `check_config_update` returns the received document exactly when
the reply parses as a (non-empty) document whose version is greater than
the local configuration's version; with no reply, an unparseable reply,
or an equal-or-older version it returns the existing configuration
unchanged.  It is a total function, so no error reaches the caller. -/
theorem claim_C7_config_update (readResult : Option (List Nat))
    (parse : List Nat → Option (List (String × Int)))
    (current : List (String × Int)) :
    (∀ msg rc, readResult = some msg → msg ≠ [] → parse msg = some rc →
      rc ≠ [] → dget rc "version" 0 > dget current "version" 0 →
      check_config_update true true readResult parse current = rc) ∧
    (readResult = none →
      check_config_update true true readResult parse current = current) ∧
    (∀ msg, readResult = some msg → parse msg = none →
      check_config_update true true readResult parse current = current) ∧
    (∀ msg rc, readResult = some msg → parse msg = some rc →
      dget rc "version" 0 ≤ dget current "version" 0 →
      check_config_update true true readResult parse current = current) := by
  refine ⟨?_, ?_, ?_, ?_⟩
  · intro msg rc hread hne hparse hrcne hgt
    unfold check_config_update
    rw [hread]
    simp [hne, hparse, hrcne, hgt]
  · intro hread
    unfold check_config_update
    rw [hread]
    simp
  · intro msg hread hparse
    unfold check_config_update
    rw [hread]
    by_cases hne : msg ≠ []
    · simp [hne, hparse]
    · simp [hne]
  · intro msg rc hread hparse hle
    unfold check_config_update
    rw [hread]
    by_cases hne : msg ≠ []
    · simp [hne, hparse]
      intro h
      omega
    · simp [hne]

/-- Witness for C7: local version 5, reply parsing to a document with
version 6 — the new document is returned. -/
theorem claim_C7_witness :
    check_config_update true true (some [54])
      (fun msg => if msg = [54] then some [("version", 6)] else none)
      [("version", 5)] = [("version", 6)] :=
  (claim_C7_config_update (some [54])
    (fun msg => if msg = [54] then some [("version", 6)] else none)
    [("version", 5)]).1 [54] [("version", 6)] rfl (by decide) (by decide)
    (by decide) (by decide)

end EspSensors

namespace EspSensors

/-! ## Message store and synchronous read (`read_topic`, mqtt.py lines 609-651)

`ESP32MQTTClient.received_messages` becomes an association list from
topic string to latest payload; each loop iteration's `check_msg` call
delivers at most one inbound PUBLISH, given by an oracle `arrivals`
indexed by iteration; `wait_time` becomes the number of loop iterations
(`fuel`). -/

/-- `received_messages.get(topic)` (the `topic_str in received_messages`
check plus the read). -/
def sget (m : List (String × List Nat)) (k : String) : Option (List Nat) :=
  match m.find? (fun e => decide (e.1 = k)) with
  | some e => some e.2
  | none => none

/-- `received_messages[topic] = msg`, insertion-ordered overwrite, as
`_message_callback` does. -/
def sset (m : List (String × List Nat)) (k : String) (v : List Nat) :
    List (String × List Nat) :=
  if m.any (fun e => decide (e.1 = k)) then
    m.map (fun e => if e.1 = k then (k, v) else e)
  else m ++ [(k, v)]

/-- `del received_messages[topic]` (guarded by `in` in the source). -/
def sdel (m : List (String × List Nat)) (k : String) : List (String × List Nat) :=
  m.filter (fun e => decide (¬ e.1 = k))

/-- Effect of one `check_msg` call on the store: the delivered PUBLISH,
if any, is stored via `_message_callback`. -/
def deliver (store : List (String × List Nat))
    (a : Option (String × List Nat)) : List (String × List Nat) :=
  match a with
  | none => store
  | some (t, m) => sset store t m

/-- The polling loop of `read_topic` (mqtt.py lines 633-651): while time
remains, call `check_msg`, then return the stored payload for `topic` if
one appeared; `i` is the current iteration index into the arrival
oracle. -/
def read_topic_loop (arrivals : Nat → Option (String × List Nat)) (topic : String)
    (store : List (String × List Nat)) (i fuel : Nat) :
    Option (List Nat) × List (String × List Nat) :=
  match fuel with
  | 0 => (none, store)
  | fuel + 1 =>
    let store2 := deliver store (arrivals i)
    match sget store2 topic with
    | some m => (some m, store2)
    | none => read_topic_loop arrivals topic store2 (i + 1) fuel

/-- `ESP32MQTTClient.read_topic` (mqtt.py lines 609-651): require a
connected client, clear any previously stored payload for the topic,
subscribe to the topic (the underlying client stores it in its
subscription dict), then poll.  Returns the read result, the final
message store, and the final subscription list. -/
def read_topic (connected : Bool) (arrivals : Nat → Option (String × List Nat))
    (topic : String) (store : List (String × List Nat)) (subs : List String)
    (fuel : Nat) :
    Option (List Nat) × List (String × List Nat) × List String :=
  if ¬connected then (none, store, subs)
  else
    let store1 := sdel store topic
    let subs1 := if subs.contains topic then subs else subs ++ [topic]
    let r := read_topic_loop arrivals topic store1 0 fuel
    (r.1, r.2, subs1)

theorem sget_sdel (m : List (String × List Nat)) (k : String) :
    sget (sdel m k) k = none := by
  induction m with
  | nil => rfl
  | cons e rest ih =>
    by_cases h : e.1 = k
    · simpa [sdel, sget, h] using ih
    · simpa [sdel, sget, h] using ih

theorem sget_sset_self (m : List (String × List Nat)) (k : String) (v : List Nat) :
    sget (sset m k v) k = some v := by
  induction m with
  | nil => simp [sset, sget]
  | cons e rest ih =>
    by_cases h : e.1 = k
    · simp [sset, sget, h]
    · by_cases hany : rest.any (fun e => decide (e.1 = k))
      · simp only [sset, List.any_cons, hany] at ih ⊢
        simp [h, hany, sget] at ih ⊢
        simpa [sset, hany] using ih
      · simp only [sset, List.any_cons, hany] at ih ⊢
        simp [h, hany, sget] at ih ⊢
        simpa [sset, hany] using ih

theorem sget_map_other (m : List (String × List Nat)) (k t : String)
    (v : List Nat) (h : t ≠ k) :
    sget (m.map (fun e => if e.1 = t then (t, v) else e)) k = sget m k := by
  induction m with
  | nil => rfl
  | cons e rest ih =>
    by_cases he : e.1 = t
    · have hek : ¬(e.1 = k) := by rw [he]; exact h
      simp [sget, he, hek, h] at ih ⊢
      exact ih
    · by_cases hek : e.1 = k
      · simp [sget, he, hek, Ne.symm h]
      · simp [sget, he, hek] at ih ⊢
        exact ih

theorem sget_append_other (m : List (String × List Nat)) (k t : String)
    (v : List Nat) (h : t ≠ k) : sget (m ++ [(t, v)]) k = sget m k := by
  induction m with
  | nil => simp [sget, h]
  | cons e rest ih =>
    by_cases hek : e.1 = k
    · simp [sget, hek]
    · simp [sget, hek] at ih ⊢
      exact ih

theorem sget_sset_other (m : List (String × List Nat)) (k t : String)
    (v : List Nat) (h : t ≠ k) : sget (sset m t v) k = sget m k := by
  unfold sset
  split
  · exact sget_map_other m k t v h
  · exact sget_append_other m k t v h

theorem read_topic_loop_succ (arrivals : Nat → Option (String × List Nat))
    (topic : String) (store : List (String × List Nat)) (i fuel : Nat) :
    read_topic_loop arrivals topic store i (fuel + 1) =
      match sget (deliver store (arrivals i)) topic with
      | some m => (some m, deliver store (arrivals i))
      | none => read_topic_loop arrivals topic (deliver store (arrivals i)) (i + 1) fuel := rfl

theorem read_topic_loop_spec (arrivals : Nat → Option (String × List Nat))
    (topic : String) :
    ∀ (fuel i0 : Nat) (store : List (String × List Nat)),
    sget store topic = none →
    (((read_topic_loop arrivals topic store i0 fuel).1 = none ↔
      ∀ k, k < fuel → ∀ m, arrivals (i0 + k) ≠ some (topic, m)) ∧
     (∀ k m, k < fuel → arrivals (i0 + k) = some (topic, m) →
       (∀ j, j < k → ∀ m', arrivals (i0 + j) ≠ some (topic, m')) →
       (read_topic_loop arrivals topic store i0 fuel).1 = some m)) := by
  intro fuel
  induction fuel with
  | zero =>
    intro i0 store hs
    constructor
    · simp [read_topic_loop]
    · intro k m hk
      omega
  | succ fuel ih =>
    intro i0 store hs
    cases harr : arrivals i0 with
    | none =>
      have hred : read_topic_loop arrivals topic store i0 (fuel + 1) =
          read_topic_loop arrivals topic store (i0 + 1) fuel := by
        rw [read_topic_loop_succ]
        simp [deliver, harr, hs]
      obtain ⟨ih1, ih2⟩ := ih (i0 + 1) store hs
      constructor
      · rw [hred, ih1]
        constructor
        · intro hall k hk m
          cases k with
          | zero =>
            rw [Nat.add_zero, harr]
            simp
          | succ k2 =>
            rw [show i0 + (k2 + 1) = (i0 + 1) + k2 from by omega]
            exact hall k2 (by omega) m
        · intro hall k hk m
          rw [show (i0 + 1) + k = i0 + (k + 1) from by omega]
          exact hall (k + 1) (by omega) m
      · intro k m hk harrk hfirst
        rw [hred]
        cases k with
        | zero =>
          rw [Nat.add_zero, harr] at harrk
          cases harrk
        | succ k2 =>
          apply ih2 k2 m (by omega)
          · rw [show (i0 + 1) + k2 = i0 + (k2 + 1) from by omega]
            exact harrk
          · intro j hj m2
            rw [show (i0 + 1) + j = i0 + (j + 1) from by omega]
            exact hfirst (j + 1) (by omega) m2
    | some tm =>
      rcases tm with ⟨t, m0⟩
      by_cases ht : t = topic
      · rw [ht] at harr
        have hred : (read_topic_loop arrivals topic store i0 (fuel + 1)).1 = some m0 := by
          rw [read_topic_loop_succ]
          simp [deliver, harr, sget_sset_self]
        constructor
        · rw [hred]
          constructor
          · intro h
            cases h
          · intro hall
            exact absurd harr (by simpa using hall 0 (by omega) m0)
        · intro k m hk harrk hfirst
          rw [hred]
          cases k with
          | zero =>
            rw [Nat.add_zero, harr] at harrk
            injection harrk with h1
            injection h1 with h2 h3
            rw [h3]
          | succ k2 =>
            exact absurd harr (by simpa using hfirst 0 (by omega) m0)
      · have hs2 : sget (sset store t m0) topic = none := by
          rw [sget_sset_other store topic t m0 ht, hs]
        have hred : read_topic_loop arrivals topic store i0 (fuel + 1) =
            read_topic_loop arrivals topic (sset store t m0) (i0 + 1) fuel := by
          rw [read_topic_loop_succ]
          simp [deliver, harr, hs2]
        obtain ⟨ih1, ih2⟩ := ih (i0 + 1) (sset store t m0) hs2
        constructor
        · rw [hred, ih1]
          constructor
          · intro hall k hk m
            cases k with
            | zero =>
              rw [Nat.add_zero, harr]
              intro hcon
              injection hcon with h1
              injection h1 with h2 h3
              exact ht h2
            | succ k2 =>
              rw [show i0 + (k2 + 1) = (i0 + 1) + k2 from by omega]
              exact hall k2 (by omega) m
          · intro hall k hk m
            rw [show (i0 + 1) + k = i0 + (k + 1) from by omega]
            exact hall (k + 1) (by omega) m
        · intro k m hk harrk hfirst
          rw [hred]
          cases k with
          | zero =>
            rw [Nat.add_zero, harr] at harrk
            injection harrk with h1
            injection h1 with h2 h3
            exact absurd h2 ht
          | succ k2 =>
            apply ih2 k2 m (by omega)
            · rw [show (i0 + 1) + k2 = i0 + (k2 + 1) from by omega]
              exact harrk
            · intro j hj m2
              rw [show (i0 + 1) + j = i0 + (j + 1) from by omega]
              exact hfirst (j + 1) (by omega) m2

/-- C8: `read_topic` on a connected client ensures a subscription for
the topic exists, and — because it first clears any previously stored
payload — its result depends only on the arrivals during the wait:
it returns none exactly when no payload for the topic arrives within
the iteration budget, and returns the payload of the first matching
arrival when one arrives at any iteration before the deadline, even
though a (now-cleared) payload for the same topic was stored before the
call. -/
theorem claim_C8_read_topic (arrivals : Nat → Option (String × List Nat))
    (topic : String) (store : List (String × List Nat)) (subs : List String)
    (fuel : Nat) :
    (topic ∈ (read_topic true arrivals topic store subs fuel).2.2) ∧
    ((read_topic true arrivals topic store subs fuel).1 = none ↔
      ∀ k, k < fuel → ∀ m, arrivals k ≠ some (topic, m)) ∧
    (∀ k m, k < fuel → arrivals k = some (topic, m) →
      (∀ j, j < k → ∀ m', arrivals j ≠ some (topic, m')) →
      (read_topic true arrivals topic store subs fuel).1 = some m) := by
  have hclear := sget_sdel store topic
  have hspec := read_topic_loop_spec arrivals topic fuel 0 (sdel store topic) hclear
  have hrt : read_topic true arrivals topic store subs fuel =
      ((read_topic_loop arrivals topic (sdel store topic) 0 fuel).1,
       (read_topic_loop arrivals topic (sdel store topic) 0 fuel).2,
       if subs.contains topic then subs else subs ++ [topic]) := by
    unfold read_topic
    simp
  refine ⟨?_, ?_, ?_⟩
  · rw [hrt]
    by_cases hc : topic ∈ subs
    · simp [hc]
    · simp [hc]
  · rw [hrt]
    simpa using hspec.1
  · intro k m hk ha hf
    rw [hrt]
    simp only
    apply hspec.2 k m hk (by simpa using ha)
    intro j hj m2
    simpa using hf j hj m2

/-- Witness for C8: a stale payload [9] for topic "t" is cleared; the
payload [7] arriving at iteration 1 of 3 is returned. -/
theorem claim_C8_witness :
    (read_topic true (fun i => if i = 1 then some ("t", [7]) else none)
      "t" [("t", [9])] [] 3).1 = some [7] :=
  (claim_C8_read_topic (fun i => if i = 1 then some ("t", [7]) else none)
    "t" [("t", [9])] [] 3).2.2 1 [7] (by norm_num) (by norm_num)
    (by
      intro j hj m2
      have hj0 : j = 0 := by omega
      subst hj0
      simp)

end EspSensors
